import Mathlib

/-!
Verification of the payment-provider resilience layer of the billpaymentapp
repository.  The definitions below are a shallow embedding of
`src/utils/payment-provider.ts` (Result model, `PaymentProviderError`,
`CircuitBreaker`, `retryWithBackoff`, `generateIdempotencyKey`),
of the Stripe provider (`StripePaymentProvider.charge` /
`executeWithMetrics` / `mapStripeError` / `mapStripePaymentIntent`) and of
the provider router (`PaymentService.getProvider` together with the
feature-flag helpers of `src/config/index.ts`).

Modelling conventions:
* JavaScript promises either resolve with a value or reject with a thrown
  error; a computation of type `Except JSError A` stands for the resolved
  (`Except.ok`) or rejected (`Except.error`) outcome of an `async` call.
  The explicit `Result` values of `src/utils/errors.ts` (`Ok`/`Err`) are a
  separate type `PResult`: a promise may *resolve* with an `Err` value,
  which is precisely the distinction the resilience layer turns on.
* Timestamps (`Date.now()`) are natural numbers (milliseconds).  JavaScript
  truthiness of a number is `≠ 0` and of a string is `≠ ""`; the embedding
  keeps those checks where the source relies on them.
* Delays and percentages are natural numbers; every configuration appearing
  in the source and in the specification uses non-negative integers.
-/

namespace BillPay

/-- Currencies supported by the payment layer (`Money.currency`). -/
inductive Currency
  | gbp
  | usd
  | eur
deriving DecidableEq, Repr

/-- `Money` from `payment-provider.ts`: integer minor units plus currency. -/
structure Money where
  amount : Nat
  currency : Currency
deriving DecidableEq, Repr

/-- `PaymentProviderError` (message, machine code, provider, retriable flag). -/
structure PPError where
  message : String
  code : String
  provider : String
  retriable : Bool
deriving DecidableEq, Repr

/-- A thrown JavaScript error as seen by the resilience layer: either a
`PaymentProviderError`, some other `Error` (name, message), or the
`undefined` value thrown by `retryWithBackoff` when its loop never ran. -/
inductive JSError
  | ppe (e : PPError)
  | other (name message : String)
  | undef
deriving DecidableEq, Repr

/-- The `Result<T, E>` tagged union of `src/utils/errors.ts`. -/
inductive PResult (α ε : Type)
  | ok (value : α)
  | err (error : ε)
deriving DecidableEq, Repr

/-- Transaction status values of the `Transaction` interface. -/
inductive TxStatus
  | pending
  | processing
  | succeeded
  | failed
  | cancelled
deriving DecidableEq, Repr

/-- The `Transaction` interface of `payment-provider.ts`.  `createdAt` and
`capturedAt` are millisecond timestamps; `metadata` is the insertion-ordered
record of string pairs. -/
structure Transaction where
  id : String
  providerId : String
  amount : Money
  status : TxStatus
  customerId : String
  paymentMethodId : Option String
  description : Option String
  metadata : List (String × String)
  createdAt : Nat
  capturedAt : Option Nat
  failureCode : Option String
  failureMessage : Option String
deriving DecidableEq, Repr

/-- `ChargeParams` of `payment-provider.ts`. -/
structure ChargeParams where
  amount : Money
  customerId : String
  paymentMethodId : Option String
  description : Option String
  metadata : Option (List (String × String))
  idempotencyKey : Option String
  captureImmediately : Option Bool
deriving DecidableEq, Repr

/-! ## Circuit breaker (`CircuitBreaker` in `payment-provider.ts`) -/

/-- The three states of the breaker. -/
inductive BState
  | closed
  | open
  | halfOpen
deriving DecidableEq, Repr

/-- The mutable fields of a `CircuitBreaker` instance together with its
constructor configuration (`threshold`, `timeout`). -/
structure Breaker where
  threshold : Nat
  timeout : Nat
  failures : Nat
  lastFailureTime : Option Nat
  state : BState
deriving DecidableEq, Repr

/-- A freshly constructed `CircuitBreaker(threshold, timeout)`. -/
def Breaker.init (threshold timeout : Nat) : Breaker :=
  ⟨threshold, timeout, 0, none, .closed⟩

/-- The synthetic error thrown while the circuit is open. -/
def circuitOpenError : PPError :=
  ⟨"Circuit breaker is open", "circuit_breaker_open", "system", true⟩

/-- The `open → half-open` promotion at the top of `execute`: the state
moves to half-open when the breaker is open, `lastFailureTime` is truthy
(a nonzero timestamp), and `now - lastFailureTime > timeout`. -/
def Breaker.promote (b : Breaker) (now : Nat) : Breaker :=
  match b.lastFailureTime with
  | some t =>
      if b.state = .open ∧ t ≠ 0 ∧ now - t > b.timeout then
        { b with state := .halfOpen }
      else b
  | none => b

/-- `CircuitBreaker.execute(fn, fallback)`.

`fn` is the outcome the wrapped upstream call would produce if invoked and
`fb` the outcome of the optional fallback.  The result triple is the call's
own outcome, the breaker state afterwards, and whether the upstream `fn`
was actually invoked. -/
def Breaker.execute (b : Breaker) (now : Nat) (fn : Except JSError α)
    (fb : Option (Except JSError α)) : Except JSError α × Breaker × Bool :=
  let b1 := b.promote now
  if b1.state = .open then
    match fb with
    | some r => (r, b1, false)
    | none => (.error (.ppe circuitOpenError), b1, false)
  else
    match fn with
    | .ok v =>
        if b1.state = .halfOpen then
          (.ok v, { b1 with state := .closed, failures := 0 }, true)
        else
          (.ok v, b1, true)
    | .error e =>
        let b2 := { b1 with failures := b1.failures + 1, lastFailureTime := some now }
        if b2.failures ≥ b2.threshold then
          (.error e, { b2 with state := .open }, true)
        else
          (.error e, b2, true)

/-- `CircuitBreaker.reset()`. -/
def Breaker.reset (b : Breaker) : Breaker :=
  { b with failures := 0, state := .closed, lastFailureTime := none }

/-- Breaker states reachable from a fresh `CircuitBreaker` by any sequence
of `execute` and `reset` calls. -/
inductive Breaker.Reachable : Breaker → Prop
  | init (threshold timeout : Nat) : Breaker.Reachable (Breaker.init threshold timeout)
  | step {b : Breaker} (now : Nat) (fn : Except JSError Unit)
      (fb : Option (Except JSError Unit)) :
      Breaker.Reachable b → Breaker.Reachable (b.execute now fn fb).2.1
  | reset {b : Breaker} : Breaker.Reachable b → Breaker.Reachable b.reset

/-! ## Retry with backoff (`retryWithBackoff` in `payment-provider.ts`) -/

/-- `RetryPolicy`. -/
structure RetryPolicy where
  maxAttempts : Nat
  initialDelay : Nat
  maxDelay : Nat
  backoffMultiplier : Nat
  retryableErrors : List String
deriving DecidableEq, Repr

/-- `defaultRetryPolicy`. -/
def defaultRetryPolicy : RetryPolicy :=
  ⟨3, 1000, 10000, 2, ["network_error", "timeout", "rate_limit", "api_connection_error"]⟩

/-- The immediate-rethrow test of `retryWithBackoff`: a thrown error stops
the loop exactly when it is a `PaymentProviderError` whose code is not in
`policy.retryableErrors` (any other thrown value is retried). -/
def RetryPolicy.nonRetriable (p : RetryPolicy) : JSError → Bool
  | .ppe e => ¬ p.retryableErrors.contains e.code
  | _ => false

/-- The body of the `for (attempt = 1; attempt <= maxAttempts; ...)` loop of
`retryWithBackoff`, with the remaining iteration count made explicit:
`fuel = maxAttempts - attempt`, so `fuel = 0` exactly when
`attempt === maxAttempts`.  On the last attempt a thrown error leaves the
loop either through the immediate non-retriable rethrow or through the
`break` followed by `throw lastError` — both rethrow the same error, so
the two paths merge.  Returns the final outcome, the index of the last
attempt performed, and the list of delays slept. -/
def retryGo (fn : Nat → Except JSError α) (p : RetryPolicy) :
    Nat → Nat → Nat → Except JSError α × Nat × List Nat
  | 0, attempt, _ =>
    (match fn attempt with
     | .ok v => (.ok v, attempt, [])
     | .error e => (.error e, attempt, []))
  | fuel + 1, attempt, delay =>
    (match fn attempt with
     | .ok v => (.ok v, attempt, [])
     | .error e =>
        if p.nonRetriable e then (.error e, attempt, [])
        else
          let next := retryGo fn p fuel (attempt + 1)
            (min (delay * p.backoffMultiplier) p.maxDelay)
          (next.1, next.2.1, delay :: next.2.2))

/-- `retryWithBackoff(fn, policy)`.  `fn i` is the outcome of the `i`-th
attempt (attempts are numbered from 1, as in the source).  When
`maxAttempts = 0` the loop never runs and the function throws its
uninitialised `lastError` (the JavaScript `undefined`). -/
def retryWithBackoff (fn : Nat → Except JSError α) (p : RetryPolicy) :
    Except JSError α × Nat × List Nat :=
  if p.maxAttempts = 0 then (.error .undef, 0, [])
  else retryGo fn p (p.maxAttempts - 1) 1 p.initialDelay

/-! ## The Stripe provider (`src/infrastructure/payments/stripe.ts`) -/

/-- The fields of a thrown `Stripe.StripeError` consumed by
`mapStripeError`: its `type`, `message` and optional `code`. -/
structure StripeError where
  type : String
  message : String
  code : Option String
deriving DecidableEq, Repr

/-- `mapStripeError`: translate an upstream Stripe error into the canonical
`PaymentProviderError`.  `error.code || 'unknown_error'` uses JavaScript
truthiness, so an empty-string code also falls back to `unknown_error`. -/
def mapStripeError (e : StripeError) : PPError :=
  { message := e.message
    code :=
      match e.code with
      | some c => if c = "" then "unknown_error" else c
      | none => "unknown_error"
    provider := "stripe"
    retriable :=
      ["api_connection_error", "rate_limit_error", "idempotency_error"].contains e.type }

/-- The `Stripe.PaymentIntent.Status` values distinguished by
`mapPaymentIntentStatus` (every other status hits the `default` branch). -/
inductive StripeIntentStatus
  | requiresPaymentMethod
  | requiresConfirmation
  | requiresAction
  | processing
  | succeeded
  | canceled
  | requiresCapture
deriving DecidableEq, Repr

/-- `mapPaymentIntentStatus`. -/
def mapPaymentIntentStatus : StripeIntentStatus → TxStatus
  | .requiresPaymentMethod => .pending
  | .requiresConfirmation => .pending
  | .requiresAction => .pending
  | .processing => .processing
  | .succeeded => .succeeded
  | .canceled => .cancelled
  | .requiresCapture => .failed

/-- The fields of a `Stripe.PaymentIntent` consumed by
`mapStripePaymentIntent`.  `currency` is stored lowercase by Stripe and
mapped back through `toUpperCase`; the embedding keeps the closed
`Currency` type on both sides.  `created` is in seconds,
`lastPaymentError` carries the optional `(code, message)` pair. -/
structure PaymentIntent where
  id : String
  amount : Nat
  currency : Currency
  status : StripeIntentStatus
  customer : String
  paymentMethod : Option String
  description : Option String
  metadata : List (String × String)
  created : Nat
  amountReceived : Nat
  lastPaymentError : Option (Option String × Option String)
deriving DecidableEq, Repr

/-- `mapStripePaymentIntent`.  `now` is the `Date.now()` value used for
`capturedAt = new Date()` when `amount_received > 0`;
`new Date(pi.created * 1000)` becomes the millisecond value
`pi.created * 1000`.  `description || undefined` drops an empty string. -/
def mapStripePaymentIntent (pi : PaymentIntent) (now : Nat) : Transaction :=
  { id := pi.id
    providerId := pi.id
    amount := ⟨pi.amount, pi.currency⟩
    status := mapPaymentIntentStatus pi.status
    customerId := pi.customer
    paymentMethodId := pi.paymentMethod
    description :=
      match pi.description with
      | some d => if d = "" then none else some d
      | none => none
    metadata := pi.metadata
    createdAt := pi.created * 1000
    capturedAt := if pi.amountReceived > 0 then some now else none
    failureCode := pi.lastPaymentError.bind (·.1)
    failureMessage := pi.lastPaymentError.bind (·.2) }

/-- The rolling counters of `StripePaymentProvider.metrics`. -/
structure ProviderMetrics where
  totalRequests : Nat
  successfulRequests : Nat
  totalLatency : Nat
deriving DecidableEq, Repr

/-- The mutable state of a `StripePaymentProvider` instance: its circuit
breaker (constructed as `new CircuitBreaker(5, 60000)`) and its metrics. -/
structure SPState where
  breaker : Breaker
  metrics : ProviderMetrics
deriving DecidableEq, Repr

/-- A freshly constructed `StripePaymentProvider`. -/
def SPState.init : SPState :=
  ⟨Breaker.init 5 60000, ⟨0, 0, 0⟩⟩

/-- `executeWithMetrics(operation, fn)`: count the request, run `fn`
through the circuit breaker (with no fallback; the `measureAsync` wrapper
is transparent to results and rethrows), count a success only when the
breaker call resolved, and always add the elapsed time `dur`.  The result
triple is the outcome, the provider state afterwards, and whether the
upstream `fn` was invoked. -/
def executeWithMetrics (st : SPState) (now dur : Nat) (fn : Except JSError α) :
    Except JSError α × SPState × Bool :=
  let m1 : ProviderMetrics := { st.metrics with totalRequests := st.metrics.totalRequests + 1 }
  let r := st.breaker.execute now fn none
  let m2 : ProviderMetrics :=
    match r.1 with
    | .ok _ => { m1 with successfulRequests := m1.successfulRequests + 1 }
    | .error _ => m1
  (r.1, ⟨r.2.1, { m2 with totalLatency := m2.totalLatency + dur }⟩, r.2.2)

/-- The behaviour of the upstream `stripe.paymentIntents.create` on one
attempt: it either resolves with a payment intent or throws a Stripe
error. -/
inductive UpstreamOutcome
  | ok (pi : PaymentIntent)
  | fail (e : StripeError)
deriving DecidableEq, Repr

/-- One attempt of the closure passed to `retryWithBackoff` inside
`charge`: the `try`/`catch` around the upstream call maps a thrown Stripe
error through `mapStripeError` and *returns* `Err(...)`, so the attempt
always resolves — it never rejects. -/
def chargeAttempt (u : UpstreamOutcome) (now : Nat) :
    Except JSError (PResult Transaction PPError) :=
  match u with
  | .ok pi => .ok (.ok (mapStripePaymentIntent pi now))
  | .fail e => .ok (.err (mapStripeError e))

/-- `StripePaymentProvider.charge(params)`: derive/forward the idempotency
key, run `retryWithBackoff` over the upstream attempts (attempt `i`
behaves as `script i`), and funnel the resulting promise through
`executeWithMetrics`.  Returns the outcome, the provider state afterwards,
and the number of upstream attempts actually performed (zero when the
breaker short-circuited). -/
def StripeCharge (st : SPState) (now dur : Nat) (script : Nat → UpstreamOutcome) :
    Except JSError (PResult Transaction PPError) × SPState × Nat :=
  let retried := retryWithBackoff (fun i => chargeAttempt (script i) now) defaultRetryPolicy
  let r := executeWithMetrics st now dur retried.1
  (r.1, r.2.1, if r.2.2 then retried.2.1 else 0)

/-- Iterate `n` charge calls whose upstream always produces `u`, starting
from provider state `st`, accumulating the total number of upstream
attempts. -/
def chargeCalls (u : UpstreamOutcome) (now dur : Nat) : Nat → SPState → SPState × Nat
  | 0, st => (st, 0)
  | n + 1, st =>
      let r := StripeCharge st now dur (fun _ => u)
      let rest := chargeCalls u now dur n r.2.1
      (rest.1, r.2.2 + rest.2)

/-! ## Feature flags (`src/config/index.ts`) and the provider router
(`PaymentService.getProvider` in `src/infrastructure/payments/index.ts`) -/

/-- JavaScript `ToInt32`: wrap an integer into `[-2^31, 2^31)`. -/
def toInt32 (n : Int) : Int := (n + 2 ^ 31) % 2 ^ 32 - 2 ^ 31

/-- One step of `Configuration.hashUserId`:
`hash = ((hash << 5) - hash) + char; hash = hash & hash`.  `hash << 5` is a
32-bit shift of a 32-bit value and `hash & hash` truncates the exact
double-precision sum back to a 32-bit integer. -/
def hashStep (h : Int) (c : Nat) : Int := toInt32 (toInt32 (h * 32) - h + c)

/-- `Configuration.hashUserId`: fold `hashStep` over the character codes and
take `Math.abs`.  (`charCodeAt` yields UTF-16 code units; user ids in this
system are ASCII, for which `Char.toNat` coincides.) -/
def hashUserId (s : String) : Nat :=
  ((s.data.map Char.toNat).foldl hashStep 0).natAbs

/-- The `FeatureFlag` record of `src/config/index.ts`.  `userOverrides` and
`variants` are insertion-ordered maps. -/
structure FeatureFlag where
  enabled : Bool
  rolloutPercentage : Option Nat
  userOverrides : List (String × Bool)
  groups : Option (List String)
  variants : Option (List (String × Nat))
deriving DecidableEq, Repr

/-- The `FeatureFlagContext` record. -/
structure FlagContext where
  userId : Option String
  groups : Option (List String)
deriving DecidableEq, Repr

/-- First-match association-list lookup (the `Map.get`/`Map.has` pair). -/
def mapGet : List (String × α) → String → Option α
  | [], _ => none
  | (k, v) :: rest, key => if k = key then some v else mapGet rest key

/-- JavaScript truthiness of an optional string (`undefined` and `""` are
falsy). -/
def truthyStr : Option String → Bool
  | some s => s ≠ ""
  | none => false

/-- `Configuration.isFeatureEnabled(flag, context)`. -/
def isFeatureEnabled (flags : List (String × FeatureFlag)) (flag : String)
    (ctx : Option FlagContext) : Bool :=
  match mapGet flags flag with
  | none => false
  | some f =>
      if ¬ f.enabled then false
      else
        let rolloutBlocked :=
          match f.rolloutPercentage, ctx with
          | some pct, some c =>
              match c.userId with
              | some uid => if uid ≠ "" then decide (hashUserId uid % 100 ≥ pct) else false
              | none => false
          | _, _ => false
        if rolloutBlocked then false
        else
          let overrideHit :=
            match ctx with
            | some c =>
                match c.userId with
                | some uid => if uid ≠ "" then mapGet f.userOverrides uid else none
                | none => none
            | none => none
          match overrideHit with
          | some b => b
          | none =>
              let groupBlocked :=
                match f.groups, ctx with
                | some gs, some c =>
                    match c.groups with
                    | some cgs => ! gs.any (fun g => cgs.contains g)
                    | none => false
                | _, _ => false
              if groupBlocked then false else true

/-- The accumulating percentage scan of `getFeatureVariant`. -/
def pickVariant (bucket : Nat) : Nat → List (String × Nat) → String
  | _, [] => "control"
  | acc, (v, pct) :: rest =>
      if bucket < acc + pct then v else pickVariant bucket (acc + pct) rest

/-- `Configuration.getFeatureVariant(experiment, context)` (the router only
calls it with a defined, nonempty `userId`). -/
def getFeatureVariant (flags : List (String × FeatureFlag)) (experiment : String)
    (uid : String) : String :=
  match mapGet flags experiment with
  | none => "control"
  | some f =>
      match f.variants with
      | none => "control"
      | some vs => pickVariant (hashUserId uid % 100) 0 vs

/-- The state of the `PaymentService` singleton: the provider `Map` (keyed
by the provider-type string, since `getProvider` probes it with a plain
string variant), the primary and optional fallback types, the feature-flag
table, and the value `getCurrentUserId()` would return. -/
structure ServiceState (π : Type) where
  providers : List (String × π)
  primaryProvider : String
  fallbackProvider : Option String
  flags : List (String × FeatureFlag)
  currentUserId : Option String

/-- The outcome of `getProvider`: a provider instance or the thrown
`Error('No payment provider available')`. -/
inductive ProviderResult (π : Type)
  | provider (p : π)
  | noProviderAvailable
deriving DecidableEq, Repr

/-- Steps (3)–(5) of `getProvider`: primary, then configured fallback, then
failure. -/
def getProviderDefault (s : ServiceState π) : ProviderResult π :=
  match mapGet s.providers s.primaryProvider with
  | some p => .provider p
  | none =>
      match s.fallbackProvider with
      | some fb =>
          match mapGet s.providers fb with
          | some p => .provider p
          | none => .noProviderAvailable
      | none => .noProviderAvailable

/-- The feature-flag step (1) of `getProvider`: the provider of a
non-`control` variant of the `payment.provider` experiment, when the
current user is assigned one and it is registered. -/
def variantPick (s : ServiceState π) : Option π :=
  match s.currentUserId with
  | some uid =>
      if uid ≠ "" ∧
          isFeatureEnabled s.flags "payment.provider.selection"
            (some ⟨some uid, none⟩) = true then
        let v := getFeatureVariant s.flags "payment.provider" uid
        if v ≠ "control" then mapGet s.providers v else none
      else none
  | none => none

/-- `PaymentService.getProvider(type?)`. -/
def getProvider (s : ServiceState π) (ty : Option String) : ProviderResult π :=
  match variantPick s with
  | some p => .provider p
  | none =>
      match ty with
      | some t =>
          match mapGet s.providers t with
          | some p => .provider p
          | none => getProviderDefault s
      | none => getProviderDefault s

/-! ## Idempotency key derivation (`generateIdempotencyKey`)

`generateIdempotencyKey(params)` is the SHA-256 hex digest (from
`node:crypto`, an external collaborator) of `JSON.stringify(params)`.  The
serialization is embedded concretely below; the digest itself is treated as
an opaque function parameter at the external boundary. -/

/-- Lowercase hexadecimal digit (as emitted by `JSON.stringify` in
`\u00xx` escapes). -/
def hexDigit (n : Nat) : Char :=
  if n < 10 then Char.ofNat (48 + n) else Char.ofNat (87 + n)

/-- Value of a lowercase hexadecimal digit. -/
def hexVal (c : Char) : Nat :=
  if c.toNat ≥ 97 then c.toNat - 87 else c.toNat - 48

/-- Decimal digit character. -/
def digitChar (n : Nat) : Char := Char.ofNat (48 + n)

/-- Decimal representation of a natural number (JavaScript number-to-string
for the non-negative integers this layer uses). -/
def natDigits (n : Nat) : List Char :=
  if _h : n < 10 then [digitChar n]
  else natDigits (n / 10) ++ [digitChar (n % 10)]
termination_by n
decreasing_by exact Nat.div_lt_self (by omega) (by omega)

/-- How `JSON.stringify` renders one character inside a string literal:
quote and backslash are escaped, the named control characters use their
short escapes, the remaining control characters use `\u00xx`, everything
else is emitted verbatim. -/
def escChunk (c : Char) : List Char :=
  if c = '\"' then ['\\', '\"']
  else if c = '\\' then ['\\', '\\']
  else if c = '\n' then ['\\', 'n']
  else if c = '\r' then ['\\', 'r']
  else if c = '\t' then ['\\', 't']
  else if c.toNat = 8 then ['\\', 'b']
  else if c.toNat = 12 then ['\\', 'f']
  else if c.toNat < 32 then ['\\', 'u', '0', '0', hexDigit (c.toNat / 16), hexDigit (c.toNat % 16)]
  else [c]

/-- `JSON.stringify` string-body escaping. -/
def esc : List Char → List Char
  | [] => []
  | c :: cs => escChunk c ++ esc cs

/-- Interpretation of a short escape character when reading an escaped
string body back. -/
def unescChar (d : Char) : Char :=
  if d = 'n' then '\n'
  else if d = 'r' then '\r'
  else if d = 't' then '\t'
  else if d = 'b' then Char.ofNat 8
  else if d = 'f' then Char.ofNat 12
  else d

/-- Read an escaped string body up to its closing unescaped quote,
returning the decoded body and the remainder.  This is the left inverse of
`esc` used to show the serialization is unambiguous. -/
def unesc : List Char → Option (List Char × List Char)
  | [] => none
  | c :: rest =>
      if c = '\"' then some ([], rest)
      else if c = '\\' then
        match rest with
        | [] => none
        | d :: rest2 =>
            if d = 'u' then
              match rest2 with
              | h1 :: h2 :: h3 :: h4 :: rest3 =>
                  (unesc rest3).map (fun pr =>
                    (Char.ofNat (4096 * hexVal h1 + 256 * hexVal h2 + 16 * hexVal h3 + hexVal h4) :: pr.1,
                      pr.2))
              | _ => none
            else (unesc rest2).map (fun pr => (unescChar d :: pr.1, pr.2))
      else (unesc rest).map (fun pr => (c :: pr.1, pr.2))

/-- The three-letter currency code. -/
def curChars : Currency → List Char
  | .gbp => ['G', 'B', 'P']
  | .usd => ['U', 'S', 'D']
  | .eur => ['E', 'U', 'R']

/-- The serialized text up to the numeric amount:
the object opener, the `amount` key, the nested object opener and its inner
`amount` key. -/
def litAmountHead : List Char :=
  ['{', '\"', 'a', 'm', 'o', 'u', 'n', 't', '\"', ':',
   '{', '\"', 'a', 'm', 'o', 'u', 'n', 't', '\"', ':']

/-- The separator between the numeric amount and the currency value. -/
def litCurrency : List Char :=
  [',', '\"', 'c', 'u', 'r', 'r', 'e', 'n', 'c', 'y', '\"', ':', '\"']

/-- The separator between the currency value and the customer id value
(closing the currency string and the nested `amount` object). -/
def litCustomerId : List Char :=
  ['\"', '}', ',', '\"', 'c', 'u', 's', 't', 'o', 'm', 'e', 'r', 'I', 'd', '\"', ':', '\"']

/-- A JSON string literal. -/
def quoted (s : String) : List Char := '\"' :: esc s.data ++ ['\"']

/-- A `,"name":value` fragment. -/
def fieldNamed (name : List Char) (v : List Char) : List Char :=
  ',' :: '\"' :: name ++ '\"' :: ':' :: v

/-- An optional string-valued property (omitted when `undefined`, as
`JSON.stringify` drops `undefined` properties). -/
def optStrField (name : List Char) : Option String → List Char
  | none => []
  | some s => fieldNamed name (quoted s)

/-- JavaScript boolean literals. -/
def boolChars : Bool → List Char
  | true => ['t', 'r', 'u', 'e']
  | false => ['f', 'a', 'l', 's', 'e']

/-- An optional boolean-valued property. -/
def optBoolField (name : List Char) : Option Bool → List Char
  | none => []
  | some b => fieldNamed name (boolChars b)

/-- The body of a serialized metadata record. -/
def metaPairs : List (String × String) → List Char
  | [] => []
  | [(k, v)] => quoted k ++ ':' :: quoted v
  | (k, v) :: rest => quoted k ++ ':' :: quoted v ++ ',' :: metaPairs rest

/-- An optional object-valued `metadata` property. -/
def optMetaField (name : List Char) : Option (List (String × String)) → List Char
  | none => []
  | some m => fieldNamed name ('{' :: metaPairs m ++ ['}'])

/-- `JSON.stringify(params)` for a `ChargeParams` value, with the
properties in interface order. -/
def stringifyChargeParams (p : ChargeParams) : List Char :=
  litAmountHead ++ natDigits p.amount.amount
    ++ litCurrency ++ curChars p.amount.currency
    ++ litCustomerId ++ esc p.customerId.data ++ '\"' ::
      (optStrField "paymentMethodId".data p.paymentMethodId
        ++ optStrField "description".data p.description
        ++ optMetaField "metadata".data p.metadata
        ++ optStrField "idempotencyKey".data p.idempotencyKey
        ++ optBoolField "captureImmediately".data p.captureImmediately
        ++ ['}'])

/-- `generateIdempotencyKey(params)`: the digest (`hash`, the external
SHA-256 hex digest) of the serialized request. -/
def generateIdempotencyKey (hash : List Char → String) (p : ChargeParams) : String :=
  hash (stringifyChargeParams p)

/-- The key `charge` forwards to the upstream:
`params.idempotencyKey || generateIdempotencyKey(params)` — the caller key
when it is truthy (present and nonempty), the derived key otherwise. -/
def chargeUpstreamKey (hash : List Char → String) (p : ChargeParams) : String :=
  match p.idempotencyKey with
  | some k => if k = "" then generateIdempotencyKey hash p else k
  | none => generateIdempotencyKey hash p

/-! ## Derived notions used by the statements below -/

/-- The delay recurrence of `retryWithBackoff`: a list of slept delays
follows the policy from starting value `d` when its head is `d` and its
tail follows from `min(d * backoffMultiplier, maxDelay)`. -/
def ChainFrom (p : RetryPolicy) : Nat → List Nat → Prop
  | _, [] => True
  | d, x :: xs => x = d ∧ ChainFrom p (min (d * p.backoffMultiplier) p.maxDelay) xs

/-- Number of rejected outcomes in a list of call outcomes. -/
def countErr (os : List (Except JSError Unit)) : Nat :=
  os.countP fun o =>
    match o with
    | .error _ => true
    | .ok _ => false

/-- Run a sequence of upstream outcomes through the breaker (all calls at
time 1, no fallback), returning the final breaker state. -/
def runCalls (b : Breaker) (os : List (Except JSError Unit)) : Breaker :=
  os.foldl (fun b o => (b.execute 1 o none).2.1) b

/-- The breaker's structural invariant: away from `closed`, the failure
counter has reached the threshold. -/
def BreakerInv (b : Breaker) : Prop :=
  b.state ≠ .closed → b.threshold ≤ b.failures

/-- Decimal value of a digit list (left inverse of `natDigits`). -/
def digitsVal (l : List Char) : Nat :=
  l.foldl (fun a c => a * 10 + (c.toNat - 48)) 0

/-! ### Concrete scenario inputs -/

/-- A policy with `initialDelay > maxDelay`: three attempts, initial delay
5, maximum delay 3, multiplier 1, retrying code `x`. -/
def c7Policy : RetryPolicy := ⟨3, 5, 3, 1, ["x"]⟩

/-- An operation that always fails with the retriable code `x`. -/
def c7Fn : Nat → Except JSError Nat := fun _ => .error (.ppe ⟨"m", "x", "p", true⟩)

/-- A successful upstream payment intent for £10.00 (1000 minor units,
GBP) for customer `cus_1`. -/
def piSucceeded : PaymentIntent :=
  ⟨"pi_1", 1000, .gbp, .succeeded, "cus_1", none, none, [], 1, 1000, none⟩

/-- A transient upstream failure whose mapped code `network_error` is in
`defaultRetryPolicy.retryableErrors`. -/
def seNetworkError : StripeError :=
  ⟨"api_connection_error", "upstream unavailable", some "network_error"⟩

/-- An upstream that fails twice with the retriable error and then
succeeds. -/
def c1Script : Nat → UpstreamOutcome := fun i =>
  if i ≤ 2 then .fail seNetworkError else .ok piSucceeded

/-- A terminal upstream decline. -/
def seCardDeclined : StripeError :=
  ⟨"card_error", "Your card was declined", some "card_declined"⟩

/-- Charge parameters carrying a present but empty caller idempotency
key. -/
def c2Params : ChargeParams :=
  ⟨⟨1000, .gbp⟩, "cus_1", none, none, none, some "", none⟩

/-! ## Properties of `retryWithBackoff` -/

/-- If every attempt from `attempt` through `attempt + fuel` fails with an
error the policy retries, the loop runs to exhaustion: the overall outcome
is the last attempt's and `attempt + fuel` attempts have been made. -/
theorem retryGo_all_fail {α : Type} (fn : Nat → Except JSError α) (p : RetryPolicy) :
    ∀ fuel attempt delay,
      (∀ i, attempt ≤ i → i ≤ attempt + fuel →
        ∃ e, fn i = .error e ∧ p.nonRetriable e = false) →
      (retryGo fn p fuel attempt delay).1 = fn (attempt + fuel) ∧
      (retryGo fn p fuel attempt delay).2.1 = attempt + fuel := by
  intro fuel
  induction fuel with
  | zero =>
      intro attempt delay h
      obtain ⟨e, he, hnr⟩ := h attempt le_rfl (by omega)
      simp [retryGo, he]
  | succ fuel ih =>
      intro attempt delay h
      obtain ⟨e, he, hnr⟩ := h attempt le_rfl (by omega)
      have ihs := ih (attempt + 1) (min (delay * p.backoffMultiplier) p.maxDelay)
        (fun i h1 h2 => h i (by omega) (by omega))
      have harith : attempt + 1 + fuel = attempt + (fuel + 1) := by omega
      rw [harith] at ihs
      simp [retryGo, he, hnr, ihs.1, ihs.2]

/-- The slept delays of the retry loop follow the policy recurrence from
the starting delay. -/
theorem retryGo_chainFrom {α : Type} (fn : Nat → Except JSError α) (p : RetryPolicy) :
    ∀ fuel attempt delay, ChainFrom p delay (retryGo fn p fuel attempt delay).2.2 := by
  intro fuel
  induction fuel with
  | zero =>
      intro attempt delay
      cases h : fn attempt <;> simp [retryGo, h, ChainFrom]
  | succ fuel ih =>
      intro attempt delay
      cases h : fn attempt with
      | ok v => simp [retryGo, h, ChainFrom]
      | error e =>
          by_cases hnr : p.nonRetriable e
          · simp [retryGo, h, hnr, ChainFrom]
          · simp only [retryGo, h, hnr, Bool.false_eq_true, if_false]
            exact ⟨rfl, ih _ _⟩

/-- A delay list following the recurrence from a start below the cap is
bounded by the cap and non-decreasing, provided the multiplier is at
least one. -/
theorem chainFrom_bounded_mono (p : RetryPolicy) (hm : 1 ≤ p.backoffMultiplier) :
    ∀ ds d, ChainFrom p d ds → d ≤ p.maxDelay →
      (∀ x ∈ ds, x ≤ p.maxDelay) ∧ List.Chain' (· ≤ ·) (d :: ds) := by
  intro ds
  induction ds with
  | nil => intro d _ _; simp
  | cons x xs ih =>
      intro d hch hd
      obtain ⟨hx, hch'⟩ := hch
      set d' := min (d * p.backoffMultiplier) p.maxDelay with hd'
      have hdd : d ≤ d' := by
        have : d ≤ d * p.backoffMultiplier := Nat.le_mul_of_pos_right d (by omega)
        omega
      have ihd := ih d' hch' (by omega)
      constructor
      · intro y hy
        rcases List.mem_cons.mp hy with hy | hy
        · omega
        · exact ihd.1 y hy
      · refine List.chain'_cons'.mpr ⟨?_, ?_⟩
        · intro h hh
          simp only [List.head?_cons, Option.mem_def, Option.some.injEq] at hh
          omega
        · refine List.chain'_cons'.mpr ⟨?_, (List.chain'_cons'.mp ihd.2).2⟩
          intro h hh
          have := (List.chain'_cons'.mp ihd.2).1 h hh
          omega

/-- Claim C6: an operation failing with a non-retriable
`PaymentProviderError` code is attempted exactly once and its error
returned immediately (no delays); an operation that always fails with a
retriable code is attempted exactly `maxAttempts` times and the last
error is returned after exhaustion. -/
theorem claim_C6_retry_classification :
    (∀ (α : Type) (fn : Nat → Except JSError α) (p : RetryPolicy) (e : PPError),
        1 ≤ p.maxAttempts → fn 1 = .error (.ppe e) →
        p.retryableErrors.contains e.code = false →
        retryWithBackoff fn p = (.error (.ppe e), 1, [])) ∧
    (∀ (α : Type) (fn : Nat → Except JSError α) (p : RetryPolicy),
        1 ≤ p.maxAttempts →
        (∀ i, 1 ≤ i → i ≤ p.maxAttempts →
          ∃ e, fn i = .error (.ppe e) ∧ p.retryableErrors.contains e.code = true) →
        (retryWithBackoff fn p).1 = fn p.maxAttempts ∧
        (retryWithBackoff fn p).2.1 = p.maxAttempts) := by
  constructor
  · intro α fn p e hmax h1 hcode
    have hnr : p.nonRetriable (.ppe e) = true := by
      have hdef : p.nonRetriable (.ppe e) =
          decide (¬ p.retryableErrors.contains e.code = true) := rfl
      rw [hdef, hcode]
      rfl
    have hm0 : ¬ p.maxAttempts = 0 := by omega
    cases hfuel : p.maxAttempts - 1 with
    | zero => simp [retryWithBackoff, hm0, hfuel, retryGo, h1, hnr]
    | succ f => simp [retryWithBackoff, hm0, hfuel, retryGo, h1, hnr]
  · intro α fn p hmax h
    have hm0 : ¬ p.maxAttempts = 0 := by omega
    have := retryGo_all_fail fn p (p.maxAttempts - 1) 1 p.initialDelay
      (fun i h1 h2 => by
        obtain ⟨e, he, hc⟩ := h i h1 (by omega)
        refine ⟨.ppe e, he, ?_⟩
        have hdef : p.nonRetriable (.ppe e) =
            decide (¬ p.retryableErrors.contains e.code = true) := rfl
        rw [hdef, hc]
        rfl)
    have harith : 1 + (p.maxAttempts - 1) = p.maxAttempts := by omega
    rw [harith] at this
    simpa [retryWithBackoff, hm0] using this

/-- Witness for C6 at `defaultRetryPolicy`: a `card_declined` failure is
attempted once; an always-`network_error` operation is attempted three
times. -/
theorem claim_C6_retry_classification_witness :
    retryWithBackoff (fun _ => (.error (.ppe ⟨"d", "card_declined", "stripe", false⟩) :
        Except JSError Nat)) defaultRetryPolicy =
      (.error (.ppe ⟨"d", "card_declined", "stripe", false⟩), 1, []) ∧
    (retryWithBackoff (fun _ => (.error (.ppe ⟨"n", "network_error", "stripe", true⟩) :
        Except JSError Nat)) defaultRetryPolicy).2.1 = 3 := by
  refine ⟨claim_C6_retry_classification.1 Nat _ defaultRetryPolicy
      ⟨"d", "card_declined", "stripe", false⟩ (by decide) rfl (by decide), ?_⟩
  exact (claim_C6_retry_classification.2 Nat _ defaultRetryPolicy (by decide)
    (fun i _ _ => ⟨⟨"n", "network_error", "stripe", true⟩, rfl, by decide⟩)).2

/-- Claim C7 fails as stated: under the policy `c7Policy`
(`initialDelay = 5 > maxDelay = 3`, multiplier 1) an always-retriable
failure sleeps the delays `[5, 3]` — a decreasing sequence whose first
element exceeds `maxDelay`, because the source never caps the initial
delay. -/
theorem claim_C7_counterexample :
    (retryWithBackoff c7Fn c7Policy).2.2 = [5, 3] ∧
    ¬ (List.Chain' (· ≤ ·) (retryWithBackoff c7Fn c7Policy).2.2 ∧
        ∀ x ∈ (retryWithBackoff c7Fn c7Policy).2.2, x ≤ c7Policy.maxDelay) := by
  have hds : (retryWithBackoff c7Fn c7Policy).2.2 = [5, 3] := by rfl
  refine ⟨hds, ?_⟩
  rintro ⟨-, hb⟩
  have h5 : (5 : Nat) ≤ c7Policy.maxDelay := by
    refine hb 5 ?_
    rw [hds]
    exact List.mem_cons_self 5 [3]
  exact absurd h5 (by decide)

/-- Claim C7 (amended): the delay sequence starts at `initialDelay`
(uncapped) and each subsequent delay is the previous one multiplied by
`backoffMultiplier` and capped at `maxDelay`; whenever
`initialDelay ≤ maxDelay` and `backoffMultiplier ≥ 1`, the whole sequence
is non-decreasing and never exceeds `maxDelay`. -/
theorem claim_C7_delay_schedule :
    ∀ (α : Type) (fn : Nat → Except JSError α) (p : RetryPolicy),
      ChainFrom p p.initialDelay (retryWithBackoff fn p).2.2 ∧
      (p.initialDelay ≤ p.maxDelay → 1 ≤ p.backoffMultiplier →
        List.Chain' (· ≤ ·) (retryWithBackoff fn p).2.2 ∧
        ∀ x ∈ (retryWithBackoff fn p).2.2, x ≤ p.maxDelay) := by
  intro α fn p
  have hchain : ChainFrom p p.initialDelay (retryWithBackoff fn p).2.2 := by
    by_cases hm0 : p.maxAttempts = 0
    · simp [retryWithBackoff, hm0, ChainFrom]
    · simpa [retryWithBackoff, hm0] using
        retryGo_chainFrom fn p (p.maxAttempts - 1) 1 p.initialDelay
  refine ⟨hchain, fun hd hm => ?_⟩
  have h := chainFrom_bounded_mono p hm _ _ hchain hd
  exact ⟨(List.chain'_cons'.mp h.2).2, h.1⟩

/-- Witness for C7 (amended) at `defaultRetryPolicy` with an
always-failing retriable operation: the recurrence holds and the slept
delays `[1000, 2000]` are non-decreasing and capped by 10000. -/
theorem claim_C7_delay_schedule_witness :
    ChainFrom defaultRetryPolicy 1000
      (retryWithBackoff (fun _ => (.error (.ppe ⟨"n", "network_error", "stripe", true⟩) :
        Except JSError Nat)) defaultRetryPolicy).2.2 ∧
    (List.Chain' (· ≤ ·)
        (retryWithBackoff (fun _ => (.error (.ppe ⟨"n", "network_error", "stripe", true⟩) :
          Except JSError Nat)) defaultRetryPolicy).2.2 ∧
      ∀ x ∈ (retryWithBackoff (fun _ => (.error (.ppe ⟨"n", "network_error", "stripe", true⟩) :
          Except JSError Nat)) defaultRetryPolicy).2.2, x ≤ defaultRetryPolicy.maxDelay) := by
  exact ⟨(claim_C7_delay_schedule Nat _ defaultRetryPolicy).1,
    (claim_C7_delay_schedule Nat _ defaultRetryPolicy).2 (by decide) (by decide)⟩

/-- Claim C10: an error that is not a `PaymentProviderError` is treated as
retryable regardless of the policy's retryable set — an operation always
rejecting with such errors is attempted exactly `maxAttempts` times and
the last error is rethrown after exhaustion. -/
theorem claim_C10_non_ppe_retried :
    ∀ (α : Type) (fn : Nat → Except JSError α) (p : RetryPolicy),
      1 ≤ p.maxAttempts →
      (∀ i, 1 ≤ i → i ≤ p.maxAttempts → ∃ nm ms, fn i = .error (.other nm ms)) →
      (retryWithBackoff fn p).2.1 = p.maxAttempts ∧
      (retryWithBackoff fn p).1 = fn p.maxAttempts := by
  intro α fn p hmax h
  have hm0 : ¬ p.maxAttempts = 0 := by omega
  have := retryGo_all_fail fn p (p.maxAttempts - 1) 1 p.initialDelay
    (fun i h1 h2 => by
      obtain ⟨nm, ms, he⟩ := h i h1 (by omega)
      exact ⟨.other nm ms, he, rfl⟩)
  have harith : 1 + (p.maxAttempts - 1) = p.maxAttempts := by omega
  rw [harith] at this
  exact ⟨by simpa [retryWithBackoff, hm0] using this.2,
    by simpa [retryWithBackoff, hm0] using this.1⟩

/-- Witness for C10: a `TypeError`-style rejection is retried to the full
three attempts of `defaultRetryPolicy` even though its "code" is not in
`retryableErrors`. -/
theorem claim_C10_non_ppe_retried_witness :
    (retryWithBackoff (fun _ => (.error (.other "TypeError" "boom") :
        Except JSError Nat)) defaultRetryPolicy).2.1 = 3 := by
  exact (claim_C10_non_ppe_retried Nat _ defaultRetryPolicy (by decide)
    (fun i _ _ => ⟨"TypeError", "boom", rfl⟩)).1

/-! ## Properties of the circuit breaker -/

/-- `promote` only ever changes the state (to half-open); configuration,
counter and timestamp are untouched. -/
theorem promote_fields (b : Breaker) (now : Nat) :
    (b.promote now).threshold = b.threshold ∧
    (b.promote now).timeout = b.timeout ∧
    (b.promote now).failures = b.failures ∧
    (b.promote now).lastFailureTime = b.lastFailureTime := by
  unfold Breaker.promote
  split
  · split <;> simp
  · simp

/-- `execute` never changes the breaker's configuration. -/
theorem execute_config {α : Type} (b : Breaker) (now : Nat) (fn : Except JSError α)
    (fb : Option (Except JSError α)) :
    (b.execute now fn fb).2.1.threshold = b.threshold ∧
    (b.execute now fn fb).2.1.timeout = b.timeout := by
  have hpf := promote_fields b now
  simp only [Breaker.execute]
  split
  · cases fb <;> simp [hpf.1, hpf.2.1]
  · split <;> split <;> simp [hpf.1, hpf.2.1]

/-- `promote` leaves the state `closed` only if it was `closed`. -/
theorem promote_state (b : Breaker) (now : Nat) :
    (b.promote now).state = b.state ∨
    ((b.promote now).state = .halfOpen ∧ b.state = .open) := by
  unfold Breaker.promote
  split
  · split
    · next h => exact .inr ⟨rfl, h.1⟩
    · exact .inl rfl
  · exact .inl rfl

/-- One `execute` call preserves the breaker invariant. -/
theorem execute_preserves_inv {α : Type} (b : Breaker) (now : Nat)
    (fn : Except JSError α) (fb : Option (Except JSError α)) :
    BreakerInv b → BreakerInv (b.execute now fn fb).2.1 := by
  intro hinv
  have hpf := promote_fields b now
  have hps := promote_state b now
  have hinv1 : BreakerInv (b.promote now) := by
    intro hne
    rw [hpf.2.2.1, hpf.1]
    rcases hps with h | h
    · exact hinv (h ▸ hne)
    · exact hinv (by rw [h.2]; intro hc; cases hc)
  unfold Breaker.execute
  by_cases hopen : (b.promote now).state = .open
  · cases fb <;> simp [hopen] <;> exact hinv1
  · simp only [hopen, if_false]
    cases fn with
    | ok v =>
        by_cases hhalf : (b.promote now).state = .halfOpen
        · simp only [hhalf, if_pos rfl]
          intro hc
          simp at hc
        · simp only [hhalf, if_false]
          exact hinv1
    | error e =>
        by_cases hthr : (b.promote now).failures + 1 ≥ (b.promote now).threshold
        · simp only [ge_iff_le, hthr, if_pos]
          intro _
          simpa using hthr
        · simp only [ge_iff_le, hthr, if_false]
          intro hne
          have := hinv1 hne
          simp only []
          omega

/-- `reset` re-establishes the invariant. -/
theorem reset_inv (b : Breaker) : BreakerInv b.reset := by
  intro h
  cases h rfl

/-- Every reachable breaker satisfies the invariant: away from `closed`
the failure counter has reached the threshold. -/
theorem reachable_inv {b : Breaker} (h : b.Reachable) : BreakerInv b := by
  induction h with
  | init threshold timeout => intro hc; cases hc rfl
  | step now fn fb _ ih => exact execute_preserves_inv _ now fn fb ih
  | reset _ _ => exact reset_inv _

/-- Claim C3: the breaker opens when the failure counter reaches the
threshold, and while open within the timeout window it never invokes the
upstream — rejecting with the retriable `circuit_breaker_open`
`PaymentProviderError` when no fallback is supplied, and returning the
fallback's result otherwise. -/
theorem claim_C3_breaker_open_behaviour :
    (∀ (α : Type) (b : Breaker) (now : Nat) (fn : Except JSError α)
        (fb : Option (Except JSError α)) (e : JSError),
        b.state ≠ .open → fn = .error e → b.threshold ≤ b.failures + 1 →
        (b.execute now fn fb).2.1.state = .open) ∧
    (∀ (α : Type) (b : Breaker) (now t : Nat) (fn : Except JSError α),
        b.state = .open → b.lastFailureTime = some t → now - t ≤ b.timeout →
        b.execute now fn none = (.error (.ppe circuitOpenError), b, false)) ∧
    (∀ (α : Type) (b : Breaker) (now t : Nat) (fn : Except JSError α)
        (r : Except JSError α),
        b.state = .open → b.lastFailureTime = some t → now - t ≤ b.timeout →
        b.execute now fn (some r) = (r, b, false)) ∧
    circuitOpenError.code = "circuit_breaker_open" ∧
    circuitOpenError.retriable = true := by
  refine ⟨?_, ?_, ?_, rfl, rfl⟩
  · intro α b now fn fb e hne hfn hthr
    have hpr : b.promote now = b := by
      unfold Breaker.promote
      cases b.lastFailureTime with
      | none => rfl
      | some t => simp [hne]
    subst hfn
    unfold Breaker.execute
    rw [hpr]
    simp only [hne, if_false]
    have : b.failures + 1 ≥ b.threshold := hthr
    simp [this]
  · intro α b now t fn hst hlt helapsed
    have hpr : b.promote now = b := by
      unfold Breaker.promote
      rw [hlt]
      have : ¬ (b.state = .open ∧ t ≠ 0 ∧ now - t > b.timeout) := by
        rintro ⟨-, -, hgt⟩
        omega
      simp [this]
    unfold Breaker.execute
    rw [hpr]
    simp [hst]
  · intro α b now t fn r hst hlt helapsed
    have hpr : b.promote now = b := by
      unfold Breaker.promote
      rw [hlt]
      have : ¬ (b.state = .open ∧ t ≠ 0 ∧ now - t > b.timeout) := by
        rintro ⟨-, -, hgt⟩
        omega
      simp [this]
    unfold Breaker.execute
    rw [hpr]
    simp [hst]

/-- Witness for C3: a closed breaker one failure below threshold opens on
the next thrown failure; an open breaker inside the timeout window
short-circuits without the upstream, and returns a supplied fallback's
result. -/
theorem claim_C3_breaker_open_behaviour_witness :
    ((⟨5, 60000, 4, some 10, .closed⟩ : Breaker).execute 20
        (.error (.other "E" "x") : Except JSError Nat) none).2.1.state = .open ∧
    (⟨5, 60000, 5, some 10, .open⟩ : Breaker).execute 20
        (.ok 7 : Except JSError Nat) none =
      (.error (.ppe circuitOpenError), ⟨5, 60000, 5, some 10, .open⟩, false) ∧
    (⟨5, 60000, 5, some 10, .open⟩ : Breaker).execute 20
        (.ok 7 : Except JSError Nat) (some (.ok 9)) =
      (.ok 9, ⟨5, 60000, 5, some 10, .open⟩, false) := by
  refine ⟨?_, ?_, ?_⟩
  · exact claim_C3_breaker_open_behaviour.1 Nat _ 20 _ none (.other "E" "x")
      (by decide) rfl (by decide)
  · exact claim_C3_breaker_open_behaviour.2.1 Nat _ 20 10 _ rfl rfl (by decide)
  · exact claim_C3_breaker_open_behaviour.2.2.1 Nat _ 20 10 _ (.ok 9) rfl rfl (by decide)

/-- Claim C5: once the timeout has elapsed since the (positive) last
failure time, the next call on an open, reachable breaker is allowed
through as a probe; a successful probe closes the breaker and zeroes the
counter, a failed probe re-opens it and refreshes `lastFailureTime`. -/
theorem claim_C5_half_open_probe :
    ∀ (α : Type) (b : Breaker) (now t : Nat) (fn : Except JSError α)
      (fb : Option (Except JSError α)),
      b.Reachable → b.state = .open → b.lastFailureTime = some t → 0 < t →
      b.timeout < now - t →
      (b.execute now fn fb).2.2 = true ∧
      (∀ v, fn = .ok v →
        (b.execute now fn fb).2.1.state = .closed ∧
        (b.execute now fn fb).2.1.failures = 0) ∧
      (∀ e, fn = .error e →
        (b.execute now fn fb).2.1.state = .open ∧
        (b.execute now fn fb).2.1.lastFailureTime = some now) := by
  intro α b now t fn fb hreach hst hlt htpos helapsed
  have hinv : b.threshold ≤ b.failures := reachable_inv hreach (by rw [hst]; intro hc; cases hc)
  have hpr : b.promote now = { b with state := .halfOpen } := by
    unfold Breaker.promote
    rw [hlt]
    have : b.state = .open ∧ t ≠ 0 ∧ now - t > b.timeout := ⟨hst, by omega, by omega⟩
    simp [this]
  constructor
  · unfold Breaker.execute
    rw [hpr]
    cases fn with
    | ok v => simp
    | error e =>
        have hc : b.threshold ≤ b.failures + 1 := by omega
        simp [hc]
  constructor
  · intro v hv
    subst hv
    unfold Breaker.execute
    rw [hpr]
    simp
  · intro e he
    subst he
    unfold Breaker.execute
    rw [hpr]
    have : b.failures + 1 ≥ b.threshold := by omega
    simp [this]

/-- Witness for C5: a breaker driven open by one failure at time 10
(threshold 1, timeout 5) is probed at time 100; a successful probe closes
it with a zeroed counter and a failing probe re-opens it with
`lastFailureTime = 100`. -/
theorem claim_C5_half_open_probe_witness :
    (((Breaker.init 1 5).execute 10 (.error (.other "E" "x") : Except JSError Unit)
        none).2.1.execute 100 (.ok () : Except JSError Unit) none).2.1.state = .closed ∧
    (((Breaker.init 1 5).execute 10 (.error (.other "E" "x") : Except JSError Unit)
        none).2.1.execute 100 (.error (.other "E" "y") : Except JSError Unit)
        none).2.1.state = .open := by
  have hreach : Breaker.Reachable
      ((Breaker.init 1 5).execute 10 (.error (.other "E" "x") : Except JSError Unit)
        none).2.1 :=
    Breaker.Reachable.step 10 _ none (Breaker.Reachable.init 1 5)
  constructor
  · exact ((claim_C5_half_open_probe Unit _ 100 10 (.ok ()) none hreach rfl rfl
      (by decide) (by decide)).2.1 () rfl).1
  · exact ((claim_C5_half_open_probe Unit _ 100 10 (.error (.other "E" "y")) none hreach
      rfl rfl (by decide) (by decide)).2.2 (.other "E" "y") rfl).1

/-- `promote` is the identity when the breaker is not open. -/
theorem promote_eq_self_of_not_open (b : Breaker) (now : Nat) (h : b.state ≠ .open) :
    b.promote now = b := by
  unfold Breaker.promote
  split
  · split
    · next hc => exact absurd hc.1 h
    · rfl
  · rfl

/-- `promote` is the identity while the timeout has not elapsed since the
last failure. -/
theorem promote_eq_self_of_within (b : Breaker) (now t : Nat)
    (hlt : b.lastFailureTime = some t) (h : now - t ≤ b.timeout) :
    b.promote now = b := by
  unfold Breaker.promote
  rw [hlt]
  have hc : ¬ (b.state = .open ∧ t ≠ 0 ∧ now - t > b.timeout) := by
    rintro ⟨-, -, hgt⟩
    omega
  simp [hc]

/-- Invariant of a run of calls at time 1 against a breaker with threshold
`t`: as long as fewer than `t` rejections have been seen the breaker is
closed and its counter equals the rejection count; from the `t`-th
rejection on it is open with counter `t`. -/
theorem runCalls_phase (t : Nat) :
    ∀ (os : List (Except JSError Unit)) (b : Breaker) (c : Nat),
      b.threshold = t →
      ((c < t ∧ b.state = .closed ∧ b.failures = c) ∨
        (t ≤ c ∧ b.state = .open ∧ b.failures = t ∧ b.lastFailureTime = some 1)) →
      (runCalls b os).threshold = t ∧
      ((c + countErr os < t ∧ (runCalls b os).state = .closed ∧
          (runCalls b os).failures = c + countErr os) ∨
        (t ≤ c + countErr os ∧ (runCalls b os).state = .open ∧
          (runCalls b os).failures = t ∧ (runCalls b os).lastFailureTime = some 1)) := by
  intro os
  induction os with
  | nil =>
      intro b c hthr hphi
      simpa [runCalls, countErr] using ⟨hthr, hphi⟩
  | cons o os ih =>
      intro b c hthr hphi
      have hrun : runCalls b (o :: os) = runCalls (b.execute 1 o none).2.1 os := by
        simp [runCalls]
      have hcount : countErr (o :: os) =
          countErr os + (if (match o with | .error _ => true | .ok _ => false) then 1 else 0) := by
        simp [countErr, List.countP_cons]
      rcases hphi with ⟨hlt, hcl, hf⟩ | ⟨hge, hop, hf, hlft⟩
      · -- closed phase: the call reaches the upstream
        have hnotopen : b.state ≠ .open := by rw [hcl]; intro hc; cases hc
        have hpr : b.promote 1 = b := promote_eq_self_of_not_open b 1 hnotopen
        cases o with
        | ok v =>
            have hstep : (b.execute 1 (.ok v) none).2.1 = b := by
              unfold Breaker.execute
              rw [hpr]
              simp [hcl]
            rw [hrun, hstep]
            have := ih b c hthr (.inl ⟨hlt, hcl, hf⟩)
            rw [hcount]
            simpa using this
        | error e =>
            set b2 := (b.execute 1 (.error e) none).2.1 with hb2
            have hb2thr : b2.threshold = t := by
              rw [hb2, (execute_config b 1 (.error e) none).1, hthr]
            by_cases hth : c + 1 ≥ t
            · have hstep : b2.state = .open ∧ b2.failures = c + 1 ∧
                  b2.lastFailureTime = some 1 := by
                rw [hb2]
                unfold Breaker.execute
                rw [hpr]
                have hc1 : b.threshold ≤ c + 1 := by omega
                simp [hcl, hf, hc1]
              have hceq : c + 1 = t := by omega
              have hrec := ih b2 (c + 1) hb2thr
                (.inr ⟨by omega, hstep.1, by rw [hstep.2.1, hceq], hstep.2.2⟩)
              rw [hrun, hcount]
              rcases hrec.2 with ⟨h1, -, -⟩ | ⟨h1, h2, h3, h4⟩
              · omega
              · refine ⟨hrec.1, .inr ⟨by simp; omega, h2, h3, h4⟩⟩
            · have hstep : b2.state = .closed ∧ b2.failures = c + 1 := by
                rw [hb2]
                unfold Breaker.execute
                rw [hpr]
                have hc1 : ¬ b.threshold ≤ c + 1 := by omega
                simp [hcl, hf, hc1]
              have hrec := ih b2 (c + 1) hb2thr (.inl ⟨by omega, hstep.1, hstep.2⟩)
              rw [hrun, hcount]
              rcases hrec.2 with ⟨h1, h2, h3⟩ | ⟨h1, h2, h3, h4⟩
              · refine ⟨hrec.1, .inl ⟨by simp; omega, h2, by simp; omega⟩⟩
              · refine ⟨hrec.1, .inr ⟨by simp; omega, h2, h3, h4⟩⟩
      · -- open phase at time 1: `1 - 1 = 0` never exceeds the timeout, so
        -- the breaker stays open and short-circuits
        have hpr : b.promote 1 = b := promote_eq_self_of_within b 1 1 hlft (by omega)
        have hstep : (b.execute 1 o none).2.1 = b := by
          unfold Breaker.execute
          rw [hpr]
          simp [hop]
        rw [hrun, hstep, hcount]
        have hrec := ih b c hthr (.inr ⟨hge, hop, hf, hlft⟩)
        rcases hrec.2 with ⟨h1, -, -⟩ | ⟨h1, h2, h3, h4⟩
        · omega
        · refine ⟨hrec.1, .inr ⟨by split <;> omega, h2, h3, h4⟩⟩

/-- Claim C9: a successful call on a closed breaker leaves it entirely
unchanged (in particular the failure counter); the counter only ever
changes by a failure increment, by a successful half-open probe zeroing
it, or by an explicit `reset()`; consequently `threshold` accumulated
failures open the breaker even with interleaved successes. -/
theorem claim_C9_failure_accounting :
    (∀ (α : Type) (b : Breaker) (now : Nat) (v : α) (fb : Option (Except JSError α)),
        b.state = .closed → b.execute now (.ok v) fb = (.ok v, b, true)) ∧
    (∀ (α : Type) (b : Breaker) (now : Nat) (fn : Except JSError α)
        (fb : Option (Except JSError α)),
        (b.execute now fn fb).2.1.failures ≠ b.failures →
        ((∃ e, fn = .error e) ∧ (b.execute now fn fb).2.1.failures = b.failures + 1) ∨
        ((∃ v, fn = .ok v) ∧ (b.execute now fn fb).2.1.failures = 0 ∧
          (b.promote now).state = .halfOpen)) ∧
    (∀ b : Breaker, (Breaker.reset b).failures = 0) ∧
    (∀ (t tmo : Nat) (os : List (Except JSError Unit)),
        1 ≤ t → t ≤ countErr os →
        (runCalls (Breaker.init t tmo) os).state = .open) := by
  refine ⟨?_, ?_, fun b => rfl, ?_⟩
  · intro α b now v fb hcl
    have hnotopen : b.state ≠ .open := by rw [hcl]; intro hc; cases hc
    have hpr : b.promote now = b := promote_eq_self_of_not_open b now hnotopen
    unfold Breaker.execute
    rw [hpr]
    simp [hcl]
  · intro α b now fn fb hne
    have hpf := promote_fields b now
    by_cases hopen : (b.promote now).state = .open
    · exfalso
      apply hne
      unfold Breaker.execute
      cases fb <;> simp [hopen, hpf.2.2.1]
    · cases fn with
      | ok v =>
          by_cases hhalf : (b.promote now).state = .halfOpen
          · refine .inr ⟨⟨v, rfl⟩, ?_, hhalf⟩
            unfold Breaker.execute
            simp [hopen, hhalf]
          · exfalso
            apply hne
            unfold Breaker.execute
            simp [hopen, hhalf, hpf.2.2.1]
      | error e =>
          refine .inl ⟨⟨e, rfl⟩, ?_⟩
          unfold Breaker.execute
          simp only [hopen, if_false]
          split <;> simp [hpf.2.2.1]
  · intro t tmo os ht hcount
    have := runCalls_phase t os (Breaker.init t tmo) 0 rfl
      (.inl ⟨by omega, rfl, rfl⟩)
    rcases this.2 with ⟨h1, -, -⟩ | ⟨-, h2, -, -⟩
    · omega
    · exact h2

/-- Witness for C9: a closed breaker with one recorded failure is left
unchanged by a success; a failing call increments its counter; a run with
interleaved outcomes (fail, ok, fail) against threshold 2 ends open. -/
theorem claim_C9_failure_accounting_witness :
    (⟨2, 60000, 1, some 5, .closed⟩ : Breaker).execute 6 (.ok 7 : Except JSError Nat) none =
      (.ok 7, ⟨2, 60000, 1, some 5, .closed⟩, true) ∧
    (((⟨2, 60000, 0, none, .closed⟩ : Breaker).execute 6
        (.error (.other "E" "x") : Except JSError Nat) none).2.1.failures = 0 + 1 ∨
      (((⟨2, 60000, 0, none, .closed⟩ : Breaker).execute 6
        (.error (.other "E" "x") : Except JSError Nat) none).2.1.failures = 0 ∧
        ((⟨2, 60000, 0, none, .closed⟩ : Breaker).promote 6).state = .halfOpen)) ∧
    (runCalls (Breaker.init 2 60000)
      [.error (.other "E" "a"), .ok (), .error (.other "E" "b")]).state = .open := by
  refine ⟨?_, ?_, ?_⟩
  · exact claim_C9_failure_accounting.1 Nat _ 6 7 none rfl
  · rcases claim_C9_failure_accounting.2.1 Nat ⟨2, 60000, 0, none, .closed⟩ 6
        (.error (.other "E" "x")) none (by decide) with ⟨-, h⟩ | ⟨-, h1, h2⟩
    · exact .inl h
    · exact .inr ⟨h1, h2⟩
  · exact claim_C9_failure_accounting.2.2.2 2 60000
      [.error (.other "E" "a"), .ok (), .error (.other "E" "b")] (by decide) (by decide)

/-! ## The `charge` pipeline -/

/-- Claim C1 fails on the code: charging £10.00 for `cus_1` against an
upstream that fails twice with the retriable `network_error` and then
succeeds, under `defaultRetryPolicy` (`maxAttempts = 3`), resolves on the
very first attempt with `Err(network_error)` — the inner closure converts
the thrown upstream error into a *returned* `Err` value, which
`retryWithBackoff` (and the breaker) treat as success, so no retry ever
happens: only one upstream attempt is made and the provider state (breaker
included) is left as fresh. -/
theorem claim_C1_charge_no_retry :
    (StripeCharge SPState.init 1000 0 c1Script).1 =
      .ok (.err ⟨"upstream unavailable", "network_error", "stripe", true⟩) ∧
    (StripeCharge SPState.init 1000 0 c1Script).2.2 = 1 ∧
    (StripeCharge SPState.init 1000 0 c1Script).2.1.breaker = Breaker.init 5 60000 := by
  refine ⟨rfl, rfl, rfl⟩

/-- Claim C4 fails on the code: after five consecutive failing charges
(threshold 5) the breaker has counted nothing — every failing charge
resolves with an `Err` value, which the breaker records as a success — so
the sixth charge still reaches the upstream (one attempt) and returns the
upstream's `Err`, not `circuit_breaker_open`; the success tally even counts
all five failures as successes. -/
theorem claim_C4_sixth_charge_not_short_circuited :
    (chargeCalls (.fail seCardDeclined) 1 0 5 SPState.init).1.breaker =
      Breaker.init 5 60000 ∧
    (chargeCalls (.fail seCardDeclined) 1 0 5 SPState.init).1.metrics.successfulRequests = 5 ∧
    (chargeCalls (.fail seCardDeclined) 1 0 5 SPState.init).2 = 5 ∧
    (StripeCharge (chargeCalls (.fail seCardDeclined) 1 0 5 SPState.init).1 1 0
        (fun _ => .fail seCardDeclined)).2.2 = 1 ∧
    (StripeCharge (chargeCalls (.fail seCardDeclined) 1 0 5 SPState.init).1 1 0
        (fun _ => .fail seCardDeclined)).1 =
      .ok (.err ⟨"Your card was declined", "card_declined", "stripe", false⟩) := by
  refine ⟨rfl, rfl, rfl, rfl, rfl⟩

/-! ## The provider router -/

/-- Claim C8: `getProvider(type?)` resolves, in order: a registered
non-control feature-flag variant for the current user; else the requested
type when registered; else the primary; else the configured fallback; else
it fails with the no-provider-available error.  In particular, with no
flag assignment and no explicit type, a registered primary is returned. -/
theorem claim_C8_resolution_order :
    ∀ (π : Type) (s : ServiceState π) (ty : Option String),
      (∀ p, variantPick s = some p → getProvider s ty = .provider p) ∧
      (variantPick s = none →
        ∀ t p, ty = some t → mapGet s.providers t = some p →
          getProvider s ty = .provider p) ∧
      (variantPick s = none → (∀ t, ty = some t → mapGet s.providers t = none) →
        ∀ p, mapGet s.providers s.primaryProvider = some p →
          getProvider s ty = .provider p) ∧
      (variantPick s = none → (∀ t, ty = some t → mapGet s.providers t = none) →
        mapGet s.providers s.primaryProvider = none →
        ∀ fb p, s.fallbackProvider = some fb → mapGet s.providers fb = some p →
          getProvider s ty = .provider p) ∧
      (variantPick s = none → (∀ t, ty = some t → mapGet s.providers t = none) →
        mapGet s.providers s.primaryProvider = none →
        (∀ fb, s.fallbackProvider = some fb → mapGet s.providers fb = none) →
        getProvider s ty = .noProviderAvailable) ∧
      (s.currentUserId = none → ty = none →
        ∀ p, mapGet s.providers s.primaryProvider = some p →
          getProvider s ty = .provider p) := by
  intro π s ty
  refine ⟨?_, ?_, ?_, ?_, ?_, ?_⟩
  · intro p hv
    simp [getProvider, hv]
  · intro hv t p hty hreg
    subst hty
    simp [getProvider, hv, hreg]
  · intro hv hty p hprim
    unfold getProvider
    rw [hv]
    cases ty with
    | none => simp [getProviderDefault, hprim]
    | some t => simp [hty t rfl, getProviderDefault, hprim]
  · intro hv hty hprim fb p hfb hfbreg
    unfold getProvider
    rw [hv]
    cases ty with
    | none => simp [getProviderDefault, hprim, hfb, hfbreg]
    | some t => simp [hty t rfl, getProviderDefault, hprim, hfb, hfbreg]
  · intro hv hty hprim hfb
    unfold getProvider
    rw [hv]
    have hdef : getProviderDefault s = (.noProviderAvailable : ProviderResult π) := by
      unfold getProviderDefault
      rw [hprim]
      cases hf : s.fallbackProvider with
      | none => rfl
      | some fb => simp [hfb fb hf]
    cases ty with
    | none => simpa using hdef
    | some t => simp [hty t rfl, hdef]
  · intro huid hty p hprim
    subst hty
    have hv : variantPick s = none := by simp [variantPick, huid]
    unfold getProvider
    rw [hv]
    simp [getProviderDefault, hprim]

/-- Witness for C8: a registry holding only `stripe` (the primary) with no
user in context returns the Stripe instance for a plain `getProvider()`
call; an empty registry fails with the no-provider error; a requested and
registered `mock` type wins over the primary when no flag applies. -/
theorem claim_C8_resolution_order_witness :
    getProvider (⟨[("stripe", "S"), ("mock", "M")], "stripe", none, [], none⟩ :
      ServiceState String) none = .provider "S" ∧
    getProvider (⟨[("stripe", "S"), ("mock", "M")], "stripe", none, [], none⟩ :
      ServiceState String) (some "mock") = .provider "M" ∧
    getProvider (⟨[], "stripe", none, [], none⟩ : ServiceState String) none =
      .noProviderAvailable := by
  refine ⟨?_, ?_, ?_⟩
  · exact (claim_C8_resolution_order String _ none).2.2.2.2.2 rfl rfl "S" rfl
  · exact (claim_C8_resolution_order String _ (some "mock")).2.1 (by rfl) "mock" "M" rfl rfl
  · exact (claim_C8_resolution_order String _ none).2.2.2.2.1 (by rfl)
      (fun t ht => by cases ht) rfl (fun fb hfb => by cases hfb)

/-! ## Unambiguity of the charge-request serialization -/

theorem digitChar_toNat : ∀ d, d < 10 → (digitChar d).toNat = 48 + d := by decide

theorem digitChar_ne_comma : ∀ d, d < 10 → digitChar d ≠ ',' := by decide

/-- Decimal digits never contain the comma that terminates the amount
field. -/
theorem natDigits_ne_comma : ∀ n, ∀ c ∈ natDigits n, c ≠ ',' := by
  intro n
  induction n using Nat.strong_induction_on with
  | _ n ih =>
      intro c hc
      by_cases h : n < 10
      · rw [natDigits] at hc
        simp only [h, dif_pos, List.mem_singleton] at hc
        subst hc
        exact digitChar_ne_comma n h
      · rw [natDigits] at hc
        simp only [h, dif_neg, not_false_iff, List.mem_append, List.mem_singleton] at hc
        rcases hc with hc | hc
        · exact ih (n / 10) (Nat.div_lt_self (by omega) (by omega)) c hc
        · subst hc
          exact digitChar_ne_comma (n % 10) (Nat.mod_lt n (by omega))

theorem digitsVal_append_singleton (xs : List Char) (c : Char) :
    digitsVal (xs ++ [c]) = digitsVal xs * 10 + (c.toNat - 48) := by
  simp [digitsVal, List.foldl_append]

/-- `digitsVal` inverts `natDigits`. -/
theorem digitsVal_natDigits : ∀ n, digitsVal (natDigits n) = n := by
  intro n
  induction n using Nat.strong_induction_on with
  | _ n ih =>
      by_cases h : n < 10
      · rw [natDigits]
        simp only [h, dif_pos]
        simp [digitsVal, digitChar_toNat n h]
      · rw [natDigits]
        simp only [h, dif_neg, not_false_iff]
        rw [digitsVal_append_singleton,
          ih (n / 10) (Nat.div_lt_self (by omega) (by omega)),
          digitChar_toNat (n % 10) (Nat.mod_lt n (by omega))]
        omega

theorem natDigits_inj {a b : Nat} (h : natDigits a = natDigits b) : a = b := by
  rw [← digitsVal_natDigits a, ← digitsVal_natDigits b, h]

/-- Two comma-free tokens followed by a comma-led tail are recovered
unambiguously from their concatenation. -/
theorem append_cons_comma_inj :
    ∀ (xs ys u v : List Char),
      (∀ c ∈ xs, c ≠ ',') → (∀ c ∈ ys, c ≠ ',') →
      xs ++ ',' :: u = ys ++ ',' :: v → xs = ys ∧ u = v := by
  intro xs
  induction xs with
  | nil =>
      intro ys u v _ hys h
      cases ys with
      | nil => simpa using h
      | cons y ys' =>
          simp only [List.nil_append, List.cons_append, List.cons.injEq] at h
          exact absurd h.1.symm (hys y (List.mem_cons_self y ys'))
  | cons x xs' ih =>
      intro ys u v hxs hys h
      cases ys with
      | nil =>
          simp only [List.nil_append, List.cons_append, List.cons.injEq] at h
          exact absurd h.1 (hxs x (List.mem_cons_self x xs'))
      | cons y ys' =>
          simp only [List.cons_append, List.cons.injEq] at h
          have hrec := ih ys' u v (fun c hc => hxs c (List.mem_cons_of_mem x hc))
            (fun c hc => hys c (List.mem_cons_of_mem y hc)) h.2
          exact ⟨by rw [h.1, hrec.1], hrec.2⟩

/-- The three-letter currency codes are told apart by their text. -/
theorem curChars_inj :
    ∀ (c₁ c₂ : Currency) (u v : List Char),
      curChars c₁ ++ u = curChars c₂ ++ v → c₁ = c₂ ∧ u = v := by
  intro c₁ c₂ u v h
  cases c₁ <;> cases c₂ <;> simp [curChars] at h <;> simp [h]

theorem hexVal_hexDigit : ∀ n, n < 16 → hexVal (hexDigit n) = n := by decide

/-- Reading back an escaped string body recovers it: `unesc` is a left
inverse of `esc` up to the closing quote. -/
theorem unesc_esc : ∀ (a r : List Char), unesc (esc a ++ '\"' :: r) = some (a, r) := by
  intro a
  induction a with
  | nil =>
      intro r
      show unesc ('\"' :: r) = some ([], r)
      rw [unesc.eq_def]
      simp
  | cons c cs ih =>
      intro r
      have hesc : esc (c :: cs) ++ '\"' :: r = escChunk c ++ (esc cs ++ '\"' :: r) := by
        show (escChunk c ++ esc cs) ++ '\"' :: r = _
        rw [List.append_assoc]
      rw [hesc]
      by_cases h1 : c = '\"'
      · subst h1
        rw [show escChunk '\"' = ['\\', '\"'] from rfl]
        rw [show (['\\', '\"'] : List Char) ++ (esc cs ++ '\"' :: r) =
          '\\' :: '\"' :: (esc cs ++ '\"' :: r) from rfl]
        rw [unesc.eq_def]
        simp [ih r, unescChar]
      · by_cases h2 : c = '\\'
        · subst h2
          rw [show escChunk '\\' = ['\\', '\\'] from rfl]
          rw [show (['\\', '\\'] : List Char) ++ (esc cs ++ '\"' :: r) =
            '\\' :: '\\' :: (esc cs ++ '\"' :: r) from rfl]
          rw [unesc.eq_def]
          simp [ih r, unescChar]
        · by_cases h3 : c = '\n'
          · subst h3
            rw [show escChunk '\n' = ['\\', 'n'] from rfl]
            rw [show (['\\', 'n'] : List Char) ++ (esc cs ++ '\"' :: r) =
              '\\' :: 'n' :: (esc cs ++ '\"' :: r) from rfl]
            rw [unesc.eq_def]
            simp [ih r, unescChar]
          · by_cases h4 : c = '\r'
            · subst h4
              rw [show escChunk '\r' = ['\\', 'r'] from rfl]
              rw [show (['\\', 'r'] : List Char) ++ (esc cs ++ '\"' :: r) =
                '\\' :: 'r' :: (esc cs ++ '\"' :: r) from rfl]
              rw [unesc.eq_def]
              simp [ih r, unescChar]
            · by_cases h5 : c = '\t'
              · subst h5
                rw [show escChunk '\t' = ['\\', 't'] from rfl]
                rw [show (['\\', 't'] : List Char) ++ (esc cs ++ '\"' :: r) =
                  '\\' :: 't' :: (esc cs ++ '\"' :: r) from rfl]
                rw [unesc.eq_def]
                simp [ih r, unescChar]
              · by_cases h6 : c.toNat = 8
                · have hc : escChunk c = ['\\', 'b'] := by
                    simp [escChunk, h1, h2, h3, h4, h5, h6]
                  rw [hc]
                  rw [show (['\\', 'b'] : List Char) ++ (esc cs ++ '\"' :: r) =
                    '\\' :: 'b' :: (esc cs ++ '\"' :: r) from rfl]
                  rw [unesc.eq_def]
                  have hcb : unescChar 'b' = c := by
                    have : unescChar 'b' = Char.ofNat 8 := by decide
                    rw [this, ← h6, Char.ofNat_toNat]
                  simp [ih r, hcb]
                · by_cases h7 : c.toNat = 12
                  · have hc : escChunk c = ['\\', 'f'] := by
                      simp [escChunk, h1, h2, h3, h4, h5, h6, h7]
                    rw [hc]
                    rw [show (['\\', 'f'] : List Char) ++ (esc cs ++ '\"' :: r) =
                      '\\' :: 'f' :: (esc cs ++ '\"' :: r) from rfl]
                    rw [unesc.eq_def]
                    have hcf : unescChar 'f' = c := by
                      have : unescChar 'f' = Char.ofNat 12 := by decide
                      rw [this, ← h7, Char.ofNat_toNat]
                    simp [ih r, hcf]
                  · by_cases h8 : c.toNat < 32
                    · have hc : escChunk c =
                          ['\\', 'u', '0', '0', hexDigit (c.toNat / 16), hexDigit (c.toNat % 16)] := by
                        simp [escChunk, h1, h2, h3, h4, h5, h6, h7, h8]
                      rw [hc]
                      rw [show (['\\', 'u', '0', '0', hexDigit (c.toNat / 16),
                          hexDigit (c.toNat % 16)] : List Char) ++ (esc cs ++ '\"' :: r) =
                        '\\' :: 'u' :: '0' :: '0' :: hexDigit (c.toNat / 16) ::
                          hexDigit (c.toNat % 16) :: (esc cs ++ '\"' :: r) from rfl]
                      rw [unesc.eq_def]
                      have hv : 4096 * hexVal '0' + 256 * hexVal '0' +
                          16 * hexVal (hexDigit (c.toNat / 16)) +
                          hexVal (hexDigit (c.toNat % 16)) = c.toNat := by
                        rw [hexVal_hexDigit _ (by omega), hexVal_hexDigit _ (by omega)]
                        have h0 : hexVal '0' = 0 := by decide
                        rw [h0]
                        omega
                      simp [ih r, hv, Char.ofNat_toNat]
                    · have hc : escChunk c = [c] := by
                        simp [escChunk, h1, h2, h3, h4, h5, h6, h7, h8]
                      rw [hc]
                      rw [show ([c] : List Char) ++ (esc cs ++ '\"' :: r) =
                        c :: (esc cs ++ '\"' :: r) from rfl]
                      rw [unesc.eq_def]
                      simp [h1, h2, ih r]

/-- Escaped string bodies followed by their closing quote are recovered
unambiguously from the concatenation. -/
theorem esc_quote_inj {a b r s : List Char}
    (h : esc a ++ '\"' :: r = esc b ++ '\"' :: s) : a = b ∧ r = s := by
  have := congrArg unesc h
  rw [unesc_esc, unesc_esc] at this
  simpa using this

/-- The serialized charge request determines the amount, the currency and
the customer id: equal serializations come from requests agreeing on all
three. -/
theorem stringify_fields_inj {p q : ChargeParams}
    (h : stringifyChargeParams p = stringifyChargeParams q) :
    p.amount.amount = q.amount.amount ∧ p.amount.currency = q.amount.currency ∧
    p.customerId = q.customerId := by
  unfold stringifyChargeParams litAmountHead litCurrency litCustomerId at h
  simp only [List.cons_append, List.nil_append, List.append_assoc,
    List.cons.injEq, true_and] at h
  obtain ⟨hd, h⟩ := append_cons_comma_inj _ _ _ _ (natDigits_ne_comma _)
    (natDigits_ne_comma _) h
  have hamount := natDigits_inj hd
  simp only [List.cons.injEq, true_and] at h
  obtain ⟨hcur, h⟩ := curChars_inj _ _ _ _ h
  simp only [List.cons.injEq, true_and] at h
  obtain ⟨hcid, -⟩ := esc_quote_inj h
  exact ⟨hamount, hcur, String.ext hcid⟩

/-- Claim C2 fails as stated on one point: a *present* caller idempotency
key that is the empty string is not forwarded — `params.idempotencyKey ||
generateIdempotencyKey(params)` treats `""` as absent (JavaScript
truthiness) and sends the derived key instead (shown here with the digest
instantiated to the raw serialization; no digest maps the nonempty
serialization to `""`). -/
theorem claim_C2_counterexample :
    c2Params.idempotencyKey = some "" ∧
    chargeUpstreamKey (fun l => String.mk l) c2Params ≠ "" := by
  exact ⟨rfl, by decide⟩

/-- Claim C2 (amended): the derived idempotency key is a pure function of
the request content (identical content, identical key); requests that
differ in amount, currency, or customer serialize to different digest
inputs and so receive different keys whenever the digest is collision-free
on them; and a caller-supplied *nonempty* idempotency key is forwarded to
the upstream instead of the derived key. -/
theorem claim_C2_idempotency_key :
    ∀ (hash : List Char → String), Function.Injective hash →
      (∀ p q : ChargeParams, p = q →
        generateIdempotencyKey hash p = generateIdempotencyKey hash q) ∧
      (∀ p q : ChargeParams,
        p.amount.amount ≠ q.amount.amount ∨ p.amount.currency ≠ q.amount.currency ∨
          p.customerId ≠ q.customerId →
        generateIdempotencyKey hash p ≠ generateIdempotencyKey hash q) ∧
      (∀ (p : ChargeParams) (k : String), k ≠ "" →
        chargeUpstreamKey hash { p with idempotencyKey := some k } = k) := by
  intro hash hinj
  refine ⟨fun p q hpq => by rw [hpq], ?_, ?_⟩
  · intro p q hdiff hkey
    have hs : stringifyChargeParams p = stringifyChargeParams q := hinj hkey
    have hfields := stringify_fields_inj hs
    rcases hdiff with hd | hd | hd
    · exact hd hfields.1
    · exact hd hfields.2.1
    · exact hd hfields.2.2
  · intro p k hk
    simp [chargeUpstreamKey, hk]

/-- Witness for C2 (amended): with the digest instantiated to the raw
serialization, two requests differing only in amount get different keys,
and a nonempty caller key is forwarded verbatim. -/
theorem claim_C2_idempotency_key_witness :
    generateIdempotencyKey String.mk
        ⟨⟨1000, .gbp⟩, "cus_1", none, none, none, none, none⟩ ≠
      generateIdempotencyKey String.mk
        ⟨⟨2000, .gbp⟩, "cus_1", none, none, none, none, none⟩ ∧
    chargeUpstreamKey String.mk
        { (⟨⟨1000, .gbp⟩, "cus_1", none, none, none, none, none⟩ : ChargeParams) with
          idempotencyKey := some "key-1" } = "key-1" := by
  have hinj : Function.Injective String.mk := fun a b hab => congrArg String.data hab
  constructor
  · exact (claim_C2_idempotency_key String.mk hinj).2.1 _ _ (Or.inl (by decide))
  · exact (claim_C2_idempotency_key String.mk hinj).2.2 _ "key-1" (by decide)

end BillPay
